import Mathlib

/-!
# Batched-detection sample harness (`samples/sample_detector.cpp`)

A shallow embedding of `main` of `sample_detector.cpp`.

* `cv::Mat` has reference semantics: copying a `Mat` (as `push_back` does) shares the pixel
  buffer, `clone()` allocates a new one.  The pixel buffers are therefore an explicit heap
  (`State.heap`) and a `Mat` is an index into it.
* A pixel buffer is represented by the raster it was decoded from together with the
  chronological list of drawing calls applied to it; equal representations denote
  pixel-identical images.
* The detector, `cv::imread` and the outcome of `cv::imwrite` are collaborators outside this
  file; they are the fields of `Env`.
* `batch_res[i]` with `i` out of range is undefined behaviour in C++; the embedding is
  totalised: such an access stops the run with `Except.error`, carrying the index and the
  state reached.  Calls into the libraries are taken to return normally.
* A C `int` is an `Int` in the range of 32 bits; the one arithmetic operation on it,
  `r.rect.y - 5`, is computed by `subInt32`, which wraps around (C++ leaves signed overflow
  undefined; the two's-complement result is taken).
* A C `float` is a `FloatVal`: a sign bit with a magnitude, an infinity or a NaN.  Magnitudes
  are rational numbers, of which the finite floats are some.
-/

namespace SampleDetector

/-! ## Data model -/

/-- A `cv::Rect`: top-left corner, width and height. -/
structure Rect where
  x : Int
  y : Int
  width : Int
  height : Int
  deriving DecidableEq, Repr

/-- A `cv::Point`. -/
structure Point where
  x : Int
  y : Int
  deriving DecidableEq, Repr

/-- A `cv::Scalar` as built from three integer channel values. -/
structure Scalar where
  v0 : Int
  v1 : Int
  v2 : Int
  deriving DecidableEq, Repr

/-- A value of the C type `float`: a finite value given by its sign bit and its magnitude
(`finite true 0` is the negative zero), an infinity or a NaN, each with its sign bit. -/
inductive FloatVal where
  | finite (neg : Bool) (mag : ℚ)
  | inf (neg : Bool)
  | nan (neg : Bool)
  deriving DecidableEq, Repr

/-- Modelled from the spec: the `Result` record of `class_detector.h` (not part of the sources
at hand): numeric class id (`int`), confidence probability (`float`), bounding rectangle. -/
structure Result where
  id : Int
  prob : FloatVal
  rect : Rect
  deriving DecidableEq, Repr

/-- The per-image ordered sequence of results (`BatchResult` of `class_detector.h`). -/
abbrev BatchResult := List Result

/-- Network variant tag of `Config`. -/
inductive ModelType where
  | YOLOV4_TINY
  deriving DecidableEq, Repr

/-- Numeric precision mode of `Config`. -/
inductive Precision where
  | FP16
  deriving DecidableEq, Repr

/-- Modelled from the spec: the `Config` record of `class_detector.h`, with the fields `main`
sets. -/
structure Config where
  net_type : ModelType
  detect_thresh : FloatVal
  file_model_cfg : String
  file_model_weights : String
  inference_precison : Precision
  deriving DecidableEq, Repr

/-- A drawing call on a pixel buffer, with the arguments the call was given. -/
inductive DrawOp where
  | rectangle (rec : Rect) (color : Scalar) (thickness : Int)
  | putText (text : String) (org : Point) (fontFace : Int) (fontScale : ℚ) (color : Scalar)
      (thickness : Int)
  deriving DecidableEq, Repr

/-- The content of a pixel buffer: the decoded raster (`[]` for an empty `cv::Mat`, which is
what `cv::imread` yields when it cannot read the file) and the drawing calls applied to the
buffer so far, oldest first. -/
structure Image where
  data : List Nat
  drawn : List DrawOp
  deriving DecidableEq, Repr

/-- Whether the image is an empty `cv::Mat`. -/
def Image.empty (im : Image) : Bool := im.data.isEmpty

/-- Observable events of a run, in the order they happen. -/
inductive Event where
  | timerReset
  | detect (batch : List Image)
  | timerOut (label : String)
  | stdout (i : Nat) (r : Result)
  | rectangle (mat : Nat) (rec : Rect) (color : Scalar) (thickness : Int)
  | putText (mat : Nat) (text : String) (org : Point) (fontFace : Int) (fontScale : ℚ)
      (color : Scalar) (thickness : Int)
  | imwrite (file : String) (img : Image) (ok : Bool)
  deriving DecidableEq, Repr

/-- The collaborators of the harness.  `σ` is the detector's internal state. -/
structure Env (σ : Type) where
  /-- The detector state after `Detector()` followed by `init(config)`. -/
  init : Config → σ
  /-- The call `detect(batch_img, batch_res)`: from the detector state, the pixel contents of
  the batch and the previous content of `batch_res`, the new detector state and the new
  `batch_res`.  The images of the batch are not modified. -/
  detect : σ → List Image → List BatchResult → σ × List BatchResult
  /-- The call `cv::imread(path, flags)`: the decoded raster, `[]` when the file cannot be
  read. -/
  imread : String → Int → List Nat
  /-- The value `cv::imwrite(file, img)` returns, given everything that happened before. -/
  imwrite : List Event → String → Image → Bool

/-- The program state of `main`. -/
structure State (σ : Type) where
  detector : σ
  heap : List Image
  batch_res : List BatchResult
  trace : List Event

/-- The result of running a piece of `main`: `ok s` when control reaches its end in state `s`,
`error (i, s)` when the access `batch_res[i]` was out of range, in state `s`. -/
abbrev Run (σ : Type) := Except (Nat × State σ) (State σ)

/-- The state carried by a result, whether the run went on or stopped. -/
def st {σ : Type} : Run σ → State σ
  | .ok s => s
  | .error (_, s) => s

/-! ## Library operations -/

/-- The call `cv::Mat::clone`: a new buffer holding a copy of the content of buffer `m`; the
handle of the new buffer is returned with the new heap. -/
def clone (heap : List Image) (m : Nat) : Nat × List Image :=
  (heap.length, heap ++ [heap.getD m ⟨[], []⟩])

/-- The image after one more drawing call. -/
def Image.draw (im : Image) (op : DrawOp) : Image :=
  { im with drawn := im.drawn ++ [op] }

/-- Apply a drawing call to buffer `m` of the heap (`cv::rectangle`, `cv::putText`). -/
def draw : List Image → Nat → DrawOp → List Image
  | [], _, _ => []
  | im :: rest, 0, op => im.draw op :: rest
  | im :: rest, m + 1, op => im :: draw rest m op

/-- Round a non-negative rational to the nearest integer, ties to even. -/
def roundHalfEven (q : ℚ) : Nat :=
  let f := q.floor.toNat
  let r := q - f
  if r < 1 / 2 then f
  else if 1 / 2 < r then f + 1
  else if f % 2 = 0 then f else f + 1

/-- The text of a sign bit. -/
def signText (neg : Bool) : String :=
  if neg then "-" else ""

/-- Output of a stream under `std::fixed << std::setprecision(2)` for a `float`: for a finite
value the sign, the integer part, a point and two decimals, the magnitude being rounded to
the nearest hundredth, ties to even; `inf` and `nan` for the others, after their sign. -/
def fixed2 : FloatVal → String
  | .finite neg mag =>
    let n := roundHalfEven (|mag| * 100)
    signText neg ++ toString (n / 100) ++ "." ++
      String.mk [Nat.digitChar (n % 100 / 10), Nat.digitChar (n % 10)]
  | .inf neg => signText neg ++ "inf"
  | .nan neg => signText neg ++ "nan"

/-- Subtraction of two C `int`s, wrapping around at 32 bits. -/
def subInt32 (a b : Int) : Int :=
  (a - b + 2147483648) % 4294967296 - 2147483648

/-- The comparison `a <= b` of two `float`s: false when either is a NaN, the zeros equal. -/
def FloatVal.le : FloatVal → FloatVal → Bool
  | .nan _, _ => false
  | _, .nan _ => false
  | .inf true, _ => true
  | _, .inf false => true
  | .inf false, _ => false
  | _, .inf true => false
  | .finite n1 m1, .finite n2 m2 =>
    decide ((if n1 then -|m1| else |m1|) ≤ (if n2 then -|m2| else |m2|))

/-- The text built in the string stream (line 48). -/
def label (r : Result) : String :=
  "id:" ++ toString r.id ++ "  score:" ++ fixed2 r.prob

/-- The drawing calls of lines 46 and 49 for one result. -/
def drawOps (r : Result) : List DrawOp :=
  [.rectangle r.rect ⟨255, 0, 0⟩ 2,
   .putText (label r) ⟨r.rect.x, subInt32 r.rect.y 5⟩ 0 (1 / 2) ⟨0, 0, 255⟩ 2]

/-- The name of the file written for slot `i` (line 51). -/
def fileName (i : Nat) : String :=
  "image" ++ toString i ++ ".jpg"

/-- The flag `cv::IMREAD_UNCHANGED`. -/
def IMREAD_UNCHANGED : Int := -1

/-! ## The program -/

/-- A counted loop `for (int i = 0; i < n; ++i) body`, stopping at the first error. -/
def forRange {σ : Type} (n : Nat) (body : Nat → State σ → Run σ) (s : State σ) : Run σ :=
  match n with
  | 0 => .ok s
  | k + 1 =>
    match forRange k body s with
    | .ok s1 => body k s1
    | .error e => .error e

/-- Lines 45-49: the body of the loop over the results of slot `i`, whose image is the
`Mat` `m`. -/
def annotateStep {σ : Type} (i m : Nat) (s : State σ) (r : Result) : State σ :=
  let s1 : State σ := { s with trace := s.trace ++ [.stdout i r] }
  let s2 : State σ := { s1 with
    heap := draw s1.heap m (.rectangle r.rect ⟨255, 0, 0⟩ 2)
    trace := s1.trace ++ [.rectangle m r.rect ⟨255, 0, 0⟩ 2] }
  let text := label r
  { s2 with
    heap := draw s2.heap m
      (.putText text ⟨r.rect.x, subInt32 r.rect.y 5⟩ 0 (1 / 2) ⟨0, 0, 255⟩ 2)
    trace := s2.trace ++
      [.putText m text ⟨r.rect.x, subInt32 r.rect.y 5⟩ 0 (1 / 2) ⟨0, 0, 255⟩ 2] }

/-- Lines 43-50: the loop over the results `rs` of slot `i`. -/
def annotate {σ : Type} (i m : Nat) (rs : List Result) (s : State σ) : State σ :=
  rs.foldl (annotateStep i m) s

/-- Lines 43-51: the body of the display loop for slot `i`.  `batch_img[i]` is in range by the
loop guard; `batch_res[i]` need not be. -/
def slotBody {σ : Type} (E : Env σ) (batch_img : List Nat) (i : Nat) (s : State σ) : Run σ :=
  match s.batch_res[i]? with
  | none => .error (i, s)
  | some rs =>
    let m := batch_img.getD i 0
    let s1 := annotate i m rs s
    let img := s1.heap.getD m ⟨[], []⟩
    let ok := E.imwrite s1.trace (fileName i) img
    .ok { s1 with trace := s1.trace ++ [.imwrite (fileName i) img ok] }

/-- Lines 24-53: the body of the lap loop; `image0` and `image1` are the source `Mat`s. -/
def lapBody {σ : Type} (E : Env σ) (image0 image1 : Nat) (_lap : Nat) (s : State σ) : Run σ :=
  let (temp0, heap1) := clone s.heap image0
  let (temp1, heap2) := clone heap1 image1
  let batch_img := [temp0, temp1, temp0, temp1]
  let pixels := batch_img.map (fun m => heap2.getD m ⟨[], []⟩)
  let (detector, batch_res) := E.detect s.detector pixels s.batch_res
  let s1 : State σ :=
    { detector := detector
      heap := heap2
      batch_res := batch_res
      trace := s.trace ++ [.timerReset, .detect pixels, .timerOut "detect"] }
  forRange batch_img.length (slotBody E batch_img) s1

/-- The configuration of lines 9-14. -/
def config_v4_tiny : Config :=
  { net_type := .YOLOV4_TINY
    detect_thresh := .finite false (1 / 2)
    file_model_cfg := "../../yolo/facemask-yolov4-tiny.cfg"
    file_model_weights := "../../yolo/facemask-yolov4-tiny_best.weights"
    inference_precison := .FP16 }

/-- The content of the `Mat` that `cv::imread` returns for `path`. -/
def loaded {σ : Type} (E : Env σ) (path : String) : Image :=
  ⟨E.imread path IMREAD_UNCHANGED, []⟩

/-- The state before the lap loop (lines 9-21): `image0` is buffer 0, `image1` buffer 1. -/
def initial {σ : Type} (E : Env σ) : State σ :=
  { detector := E.init config_v4_tiny
    heap := [loaded E "../configs/dog.jpg", loaded E "../configs/person.jpg"]
    batch_res := []
    trace := [] }

/-- The first `n` laps of the loop of line 22. -/
def runLaps {σ : Type} (E : Env σ) (n : Nat) : Run σ :=
  forRange n (lapBody E 0 1) (initial E)

/-- The whole of `main`. -/
def main {σ : Type} (E : Env σ) : Run σ :=
  runLaps E 10

/-! ## Reading a trace -/

/-- The batches handed to `detect`, in call order. -/
def detectCalls (t : List Event) : List (List Image) :=
  t.filterMap fun e => match e with
    | .detect b => some b
    | _ => none

/-- The `cv::imwrite` calls: file name, image and returned value, in call order. -/
def writes (t : List Event) : List (String × Image × Bool) :=
  t.filterMap fun e => match e with
    | .imwrite f img ok => some (f, img, ok)
    | _ => none

/-- What the program prints: the per-detection lines and the timing lines. -/
def printed (t : List Event) : List Event :=
  t.filter fun e => match e with
    | .stdout _ _ => true
    | .timerOut _ => true
    | _ => false

/-- The drawing calls issued, in call order. -/
def drawCalls (t : List Event) : List Event :=
  t.filter fun e => match e with
    | .rectangle _ _ _ _ => true
    | .putText _ _ _ _ _ _ _ => true
    | _ => false

/-- The content of file `name` after the writes `ws`, none having been there before: the image
of the last successful write to it. -/
def fileContent (ws : List (String × Image × Bool)) (name : String) : Option Image :=
  ws.foldl (fun cur w => if w.1 = name ∧ w.2.2 = true then some w.2.1 else cur) none

/-! ## Auxiliary definitions for the statements -/

/-- The content of `image0` after line 18. -/
def srcA {σ : Type} (E : Env σ) : Image := loaded E "../configs/dog.jpg"

/-- The content of `image1` after line 19. -/
def srcB {σ : Type} (E : Env σ) : Image := loaded E "../configs/person.jpg"

/-- The source images are what was loaded: buffer 0 holds `srcA`, buffer 1 holds `srcB`. -/
def SrcInv {σ : Type} (E : Env σ) (s : State σ) : Prop :=
  s.heap[0]? = some (srcA E) ∧ s.heap[1]? = some (srcB E)

/-- The events of lines 45-49 for one result of slot `i` drawn on `Mat` `m`. -/
def resultEvents (i m : Nat) (r : Result) : List Event :=
  [.stdout i r,
   .rectangle m r.rect ⟨255, 0, 0⟩ 2,
   .putText m (label r) ⟨r.rect.x, subInt32 r.rect.y 5⟩ 0 (1 / 2) ⟨0, 0, 255⟩ 2]

/-- Apply a sequence of drawing calls to buffer `m`. -/
def drawAll (heap : List Image) (m : Nat) (ops : List DrawOp) : List Image :=
  ops.foldl (fun h op => draw h m op) heap

/-- The image handed to `cv::imwrite` for slot `i` when its results are `rs`. -/
def slotImage {σ : Type} (b : List Nat) (i : Nat) (s : State σ) (rs : List Result) : Image :=
  (drawAll s.heap (b.getD i 0) (rs.flatMap drawOps)).getD (b.getD i 0) ⟨[], []⟩

/-- The value `cv::imwrite` returns for slot `i` when its results are `rs`. -/
def slotOk {σ : Type} (E : Env σ) (b : List Nat) (i : Nat) (s : State σ)
    (rs : List Result) : Bool :=
  E.imwrite (s.trace ++ rs.flatMap (resultEvents i (b.getD i 0))) (fileName i)
    (slotImage b i s rs)

/-- What the display loop leaves alone, relative to the state `s0` it started in: the
detector, `batch_res`, the buffers that are not in the batch, and the `detect` calls. -/
def SlotFrame {σ : Type} (s0 : State σ) (b : List Nat) (s : State σ) : Prop :=
  s.detector = s0.detector ∧ s.batch_res = s0.batch_res ∧ s.heap.length = s0.heap.length ∧
    (∀ j, j ∉ b → s.heap[j]? = s0.heap[j]?) ∧ detectCalls s.trace = detectCalls s0.trace

/-- The state in which the display loop of a lap starts. -/
def afterDetect {σ : Type} (E : Env σ) (image0 image1 : Nat) (s : State σ) : State σ :=
  let heap2 := s.heap ++ [s.heap.getD image0 ⟨[], []⟩] ++
    [(s.heap ++ [s.heap.getD image0 ⟨[], []⟩]).getD image1 ⟨[], []⟩]
  let pixels := [s.heap.length, s.heap.length + 1, s.heap.length, s.heap.length + 1].map
    (fun m => heap2.getD m ⟨[], []⟩)
  { detector := (E.detect s.detector pixels s.batch_res).1
    heap := heap2
    batch_res := (E.detect s.detector pixels s.batch_res).2
    trace := s.trace ++ [.timerReset, .detect pixels, .timerOut "detect"] }

/-- The file names of one lap, in the order they are written. -/
def lapFiles : List String := (List.range 4).map fileName

/-! ## Relations between runs -/

/-- Forget the value a `cv::imwrite` call returned. -/
def eraseOk : Event → Event
  | .imwrite f img _ => .imwrite f img true
  | e => e

/-- Two states that agree on everything but the values `cv::imwrite` returned. -/
def SameButOk {σ : Type} (s t : State σ) : Prop :=
  s.detector = t.detector ∧ s.heap = t.heap ∧ s.batch_res = t.batch_res ∧
    s.trace.map eraseOk = t.trace.map eraseOk

/-- Two runs that stop or go on alike, in states that agree on everything but the values
`cv::imwrite` returned. -/
def SameRun {σ : Type} : Run σ → Run σ → Prop
  | .ok s, .ok t => SameButOk s t
  | .error (i, s), .error (j, t) => i = j ∧ SameButOk s t
  | _, _ => False

/-! ## Provenance of drawings and printed lines -/

/-- A drawing call that is one of the two calls made for a result satisfying `P`. -/
def DrawnFrom (P : Result → Prop) (op : DrawOp) : Prop :=
  ∃ r, P r ∧ op ∈ drawOps r

/-- Every detection an event shows satisfies `P`: the result of a printed line, the result
behind a rectangle or a label, the drawings on a written image. -/
def EventFrom (P : Result → Prop) : Event → Prop
  | .stdout _ r => P r
  | .rectangle _ rec color thickness => DrawnFrom P (.rectangle rec color thickness)
  | .putText _ text org fontFace fontScale color thickness =>
    DrawnFrom P (.putText text org fontFace fontScale color thickness)
  | .imwrite _ img _ => ∀ op ∈ img.drawn, DrawnFrom P op
  | _ => True

/-- Every detection in the state satisfies `P`, and the detector state satisfies `D`. -/
def Good {σ : Type} (P : Result → Prop) (D : σ → Prop) (s : State σ) : Prop :=
  D s.detector ∧ (∀ rs ∈ s.batch_res, ∀ r ∈ rs, P r) ∧
    (∀ im ∈ s.heap, ∀ op ∈ im.drawn, DrawnFrom P op) ∧ (∀ e ∈ s.trace, EventFrom P e)

/-! ## Example environments -/

/-- Modelled from the spec: the detector collaborator (the `class_detector` library, which is
not part of the sources at hand).  `init` keeps the configuration.  `detect` returns one result
sequence per submitted image, in batch order, holding those candidates of the inference for
that image (`raw`, left open: call number, batch, slot) whose probability is at least the
configured confidence threshold, the threshold itself included.  The detector state is the
configuration and the number of calls made. -/
def thresholdEnv (raw : Nat → List Image → Nat → List Result)
    (imread : String → Int → List Nat) (imwrite : List Event → String → Image → Bool) :
    Env (Config × Nat) :=
  { init := fun c => (c, 0)
    detect := fun d batch _ =>
      ((d.1, d.2 + 1), (List.range batch.length).map fun j =>
        (raw d.2 batch j).filter fun r => FloatVal.le d.1.detect_thresh r.prob)
    imread := imread
    imwrite := imwrite }

/-- Candidates with probabilities 0.25, 0.5 and 0.75 for every image. -/
def threeCandidates : Nat → List Image → Nat → List Result :=
  fun _ _ _ =>
    [⟨0, .finite false (1 / 4), ⟨0, 0, 1, 1⟩⟩, ⟨1, .finite false (1 / 2), ⟨0, 0, 1, 1⟩⟩,
     ⟨2, .finite false (3 / 4), ⟨0, 0, 1, 1⟩⟩]

/-- An environment whose detector finds nothing (four empty result sequences at every call),
whose two image files decode to `data`, and whose `cv::imwrite` calls all return `ok`. -/
def quietEnv (data : List Nat) (ok : Bool) : Env Unit :=
  { init := fun _ => ()
    detect := fun _ _ _ => ((), [[], [], [], []])
    imread := fun _ _ => data
    imwrite := fun _ _ _ => ok }

/-- An environment whose detector leaves only three result sequences. -/
def shortEnv : Env Unit :=
  { init := fun _ => ()
    detect := fun _ _ _ => ((), [[], [], []])
    imread := fun _ _ => [1]
    imwrite := fun _ _ _ => true }

/-- A detection of class 1 with probability 0.875. -/
def dogBox : Result := ⟨1, .finite false (7 / 8), ⟨10, 20, 30, 40⟩⟩

/-- An environment whose detector reports `dogBox` for slot 0 and nothing for the other
slots; dog.jpg decodes to `[1]`, person.jpg to `[2]`, and the writes succeed. -/
def slot0Env : Env Unit :=
  { init := fun _ => ()
    detect := fun _ _ _ => ((), [[dogBox], [], [], []])
    imread := fun path _ => if path = "../configs/dog.jpg" then [1] else [2]
    imwrite := fun _ _ _ => true }

/-- As `slot0Env`, with a detector that reports `dogBox` for both slots of dog.jpg, 0 and 2. -/
def slot02Env : Env Unit :=
  { init := fun _ => ()
    detect := fun _ _ _ => ((), [[dogBox], [], [dogBox], []])
    imread := fun path _ => if path = "../configs/dog.jpg" then [1] else [2]
    imwrite := fun _ _ _ => true }

/-- A state with one buffer and one, empty, result sequence. -/
def oneSlotState : State Unit :=
  { detector := ()
    heap := [⟨[1], []⟩]
    batch_res := [[]]
    trace := [] }

/-! ## The heap -/

theorem length_draw (h : List Image) (m : Nat) (op : DrawOp) :
    (draw h m op).length = h.length := by
  induction h generalizing m with
  | nil => rfl
  | cons a t ih =>
    cases m with
    | zero => rfl
    | succ m => simp [draw, ih]

theorem getElem?_draw_ne (h : List Image) (m j : Nat) (op : DrawOp) (hj : j ≠ m) :
    (draw h m op)[j]? = h[j]? := by
  induction h generalizing m j with
  | nil => rfl
  | cons a t ih =>
    cases m with
    | zero =>
      cases j with
      | zero => exact absurd rfl hj
      | succ j => simp [draw]
    | succ m =>
      cases j with
      | zero => simp [draw]
      | succ j =>
        have hjm : j ≠ m := fun e => hj (by rw [e])
        simp [draw, ih m j hjm]

theorem getElem?_draw_self (h : List Image) (m : Nat) (op : DrawOp) :
    (draw h m op)[m]? = (h[m]?).map (fun im => im.draw op) := by
  induction h generalizing m with
  | nil => rfl
  | cons a t ih =>
    cases m with
    | zero => simp [draw]
    | succ m => simp [draw, ih m]

theorem length_drawAll (h : List Image) (m : Nat) (ops : List DrawOp) :
    (drawAll h m ops).length = h.length := by
  induction ops generalizing h with
  | nil => rfl
  | cons op ops ih => simp [drawAll, List.foldl_cons] at ih ⊢; rw [ih, length_draw]

theorem getElem?_drawAll_ne (h : List Image) (m j : Nat) (ops : List DrawOp) (hj : j ≠ m) :
    (drawAll h m ops)[j]? = h[j]? := by
  induction ops generalizing h with
  | nil => rfl
  | cons op ops ih =>
    simp only [drawAll, List.foldl_cons] at ih ⊢
    rw [ih, getElem?_draw_ne h m j op hj]

theorem getElem?_drawAll_self (h : List Image) (m : Nat) (ops : List DrawOp) :
    (drawAll h m ops)[m]? = (h[m]?).map (fun im => { im with drawn := im.drawn ++ ops }) := by
  induction ops generalizing h with
  | nil =>
    cases hm : h[m]? with
    | none => simp [drawAll, hm]
    | some im => simp [drawAll, hm]
  | cons op ops ih =>
    simp only [drawAll, List.foldl_cons] at ih ⊢
    rw [ih, getElem?_draw_self]
    cases h[m]? <;> simp [Image.draw]

/-! ## The annotation loop -/

theorem annotate_cons {σ : Type} (i m : Nat) (r : Result) (rs : List Result) (s : State σ) :
    annotate i m (r :: rs) s = annotate i m rs (annotateStep i m s r) := rfl

theorem annotate_detector {σ : Type} (i m : Nat) (rs : List Result) (s : State σ) :
    (annotate i m rs s).detector = s.detector := by
  induction rs generalizing s with
  | nil => rfl
  | cons r rs ih => rw [annotate_cons, ih]; rfl

theorem annotate_batch_res {σ : Type} (i m : Nat) (rs : List Result) (s : State σ) :
    (annotate i m rs s).batch_res = s.batch_res := by
  induction rs generalizing s with
  | nil => rfl
  | cons r rs ih => rw [annotate_cons, ih]; rfl

theorem annotate_trace {σ : Type} (i m : Nat) (rs : List Result) (s : State σ) :
    (annotate i m rs s).trace = s.trace ++ rs.flatMap (resultEvents i m) := by
  induction rs generalizing s with
  | nil => simp [annotate]
  | cons r rs ih =>
    rw [annotate_cons, ih]
    simp [annotateStep, resultEvents, List.flatMap_cons]

theorem annotate_heap {σ : Type} (i m : Nat) (rs : List Result) (s : State σ) :
    (annotate i m rs s).heap = drawAll s.heap m (rs.flatMap drawOps) := by
  induction rs generalizing s with
  | nil => simp [annotate, drawAll]
  | cons r rs ih =>
    rw [annotate_cons, ih]
    simp [annotateStep, drawOps, List.flatMap_cons, drawAll]

theorem annotate_eq {σ : Type} (i m : Nat) (rs : List Result) (s : State σ) :
    annotate i m rs s =
      { detector := s.detector
        heap := drawAll s.heap m (rs.flatMap drawOps)
        batch_res := s.batch_res
        trace := s.trace ++ rs.flatMap (resultEvents i m) } := by
  have h1 := annotate_detector i m rs s
  have h2 := annotate_heap i m rs s
  have h3 := annotate_batch_res i m rs s
  have h4 := annotate_trace i m rs s
  cases h : annotate i m rs s
  rw [h] at h1 h2 h3 h4
  simp only at h1 h2 h3 h4
  rw [h1, h2, h3, h4]

/-! ## The display loop -/

theorem slotBody_none {σ : Type} (E : Env σ) (b : List Nat) (i : Nat) (s : State σ)
    (h : s.batch_res[i]? = none) : slotBody E b i s = .error (i, s) := by
  simp [slotBody, h]

theorem slotBody_some {σ : Type} (E : Env σ) (b : List Nat) (i : Nat) (s : State σ)
    (rs : List Result) (h : s.batch_res[i]? = some rs) :
    slotBody E b i s = .ok
      { detector := s.detector
        heap := drawAll s.heap (b.getD i 0) (rs.flatMap drawOps)
        batch_res := s.batch_res
        trace := s.trace ++ rs.flatMap (resultEvents i (b.getD i 0)) ++
          [.imwrite (fileName i) (slotImage b i s rs) (slotOk E b i s rs)] } := by
  simp [slotBody, h, annotate_eq, slotImage, slotOk]

theorem forRange_succ {σ : Type} (n : Nat) (body : Nat → State σ → Run σ) (s : State σ) :
    forRange (n + 1) body s =
      match forRange n body s with
      | .ok s1 => body n s1
      | .error e => .error e := rfl

/-- An invariant of the loop body, on the state reached whether or not the body stops the
run, is an invariant of the loop. -/
theorem forRange_invariant {σ : Type} (P : State σ → Prop) (body : Nat → State σ → Run σ)
    (n : Nat) (hbody : ∀ i s, i < n → P s → P (st (body i s))) (s : State σ) (hs : P s) :
    P (st (forRange n body s)) := by
  induction n with
  | zero => exact hs
  | succ k ih =>
    have hk := ih (fun i s hi hp => hbody i s (Nat.lt_succ_of_lt hi) hp)
    rw [forRange_succ]
    cases hr : forRange k body s with
    | ok s1 =>
      rw [hr] at hk
      exact hbody k s1 (Nat.lt_succ_self k) hk
    | error e =>
      rw [hr] at hk
      exact hk

/-- Once a loop has stopped with an error, more iterations change nothing. -/
theorem forRange_error_mono {σ : Type} (body : Nat → State σ → Run σ) (s : State σ)
    (n k : Nat) (e : Nat × State σ) (h : forRange n body s = .error e) :
    forRange (n + k) body s = .error e := by
  induction k with
  | zero => exact h
  | succ k ih => rw [← Nat.add_assoc, forRange_succ, ih]

/-! ## Projections of a trace -/

theorem detectCalls_append (t u : List Event) :
    detectCalls (t ++ u) = detectCalls t ++ detectCalls u := by
  simp [detectCalls, List.filterMap_append]

theorem writes_append (t u : List Event) : writes (t ++ u) = writes t ++ writes u := by
  simp [writes, List.filterMap_append]

theorem printed_append (t u : List Event) : printed (t ++ u) = printed t ++ printed u := by
  simp [printed, List.filter_append]

theorem drawCalls_append (t u : List Event) :
    drawCalls (t ++ u) = drawCalls t ++ drawCalls u := by
  simp [drawCalls, List.filter_append]

theorem detectCalls_resultEvents (i m : Nat) (rs : List Result) :
    detectCalls (rs.flatMap (resultEvents i m)) = [] := by
  induction rs with
  | nil => rfl
  | cons r rs ih =>
    rw [List.flatMap_cons, detectCalls_append, ih]
    rfl

theorem writes_resultEvents (i m : Nat) (rs : List Result) :
    writes (rs.flatMap (resultEvents i m)) = [] := by
  induction rs with
  | nil => rfl
  | cons r rs ih =>
    rw [List.flatMap_cons, writes_append, ih]
    rfl

theorem slotBody_frame {σ : Type} (E : Env σ) (b : List Nat) (s0 : State σ) (i : Nat)
    (s : State σ) (hi : i < b.length) (hs : SlotFrame s0 b s) :
    SlotFrame s0 b (st (slotBody E b i s)) := by
  cases hres : s.batch_res[i]? with
  | none => rw [slotBody_none E b i s hres]; exact hs
  | some rs =>
    rw [slotBody_some E b i s rs hres]
    obtain ⟨h1, h2, h3, h4, h5⟩ := hs
    have hm : b.getD i 0 ∈ b := by
      rw [List.getD_eq_getElem b 0 hi]
      exact List.getElem_mem hi
    refine ⟨h1, h2, ?_, ?_, ?_⟩
    · simp only [st]
      rw [length_drawAll, h3]
    · intro j hj
      simp only [st]
      have hne : j ≠ b.getD i 0 := fun e => hj (e ▸ hm)
      rw [getElem?_drawAll_ne _ _ _ _ hne]
      exact h4 j hj
    · simp only [st]
      rw [detectCalls_append, detectCalls_append, detectCalls_resultEvents, h5]
      simp [detectCalls]

theorem slotLoop_frame {σ : Type} (E : Env σ) (b : List Nat) (s : State σ) :
    SlotFrame s b (st (forRange b.length (slotBody E b) s)) :=
  forRange_invariant (SlotFrame s b) (slotBody E b) b.length
    (fun i s1 hi h1 => slotBody_frame E b s i s1 hi h1) s
    ⟨rfl, rfl, rfl, fun _ _ => rfl, rfl⟩

/-- The display loop over the first `n` slots goes through when `batch_res` has at least `n`
entries; it then makes exactly one `cv::imwrite` call per slot, in slot order. -/
theorem slotLoop_ok {σ : Type} (E : Env σ) (b : List Nat) (s : State σ) (n : Nat)
    (hn : n ≤ s.batch_res.length) :
    ∃ s1 ws, forRange n (slotBody E b) s = .ok s1 ∧ s1.batch_res = s.batch_res ∧
      writes s1.trace = writes s.trace ++ ws ∧
      ws.map (fun w => w.1) = (List.range n).map fileName ∧
      ((∀ t f im, E.imwrite t f im = true) → ∀ w ∈ ws, w.2.2 = true) := by
  induction n with
  | zero => exact ⟨s, [], rfl, rfl, by simp, rfl, fun _ w hw => by cases hw⟩
  | succ k ih =>
    obtain ⟨s1, ws, hrun, hres, hws, hnames, hok⟩ := ih (by omega)
    have hk : k < s1.batch_res.length := by rw [hres]; omega
    have hsome : s1.batch_res[k]? = some s1.batch_res[k] := List.getElem?_eq_getElem hk
    rw [forRange_succ, hrun]
    simp only
    rw [slotBody_some E b k s1 _ hsome]
    refine ⟨_, ws ++ [(fileName k, slotImage b k s1 s1.batch_res[k],
      slotOk E b k s1 s1.batch_res[k])], rfl, hres, ?_, ?_, ?_⟩
    · simp only
      rw [writes_append, writes_append, writes_resultEvents, hws]
      simp [writes]
    · rw [List.map_append, hnames, List.range_succ, List.map_append]
      rfl
    · intro hall w hw
      rcases List.mem_append.1 hw with h | h
      · exact hok hall w h
      · rw [List.mem_singleton.1 h]
        exact hall _ _ _

/-- The display loop over more slots than `batch_res` has entries stops at the first index
that is out of range. -/
theorem slotLoop_error {σ : Type} (E : Env σ) (b : List Nat) (s : State σ) (n : Nat)
    (hn : s.batch_res.length < n) :
    ∃ s1, forRange n (slotBody E b) s = .error (s.batch_res.length, s1) ∧
      s1.batch_res = s.batch_res := by
  induction n with
  | zero => omega
  | succ k ih =>
    rw [forRange_succ]
    by_cases hk : s.batch_res.length < k
    · obtain ⟨s1, hrun, hres⟩ := ih hk
      exact ⟨s1, by rw [hrun], hres⟩
    · have hkeq : k = s.batch_res.length := by omega
      obtain ⟨s1, ws, hrun, hres, -⟩ := slotLoop_ok E b s k (by omega)
      rw [hrun]
      simp only
      have hnone : s1.batch_res[k]? = none := by
        rw [List.getElem?_eq_none]
        rw [hres]; omega
      rw [slotBody_none E b k s1 hnone, hkeq]
      exact ⟨s1, rfl, hres⟩

/-! ## One lap -/

theorem lapBody_eq {σ : Type} (E : Env σ) (image0 image1 lap : Nat) (s : State σ) :
    lapBody E image0 image1 lap s =
      forRange 4 (slotBody E [s.heap.length, s.heap.length + 1, s.heap.length,
        s.heap.length + 1]) (afterDetect E image0 image1 s) := by
  simp [lapBody, clone, afterDetect]

theorem SrcInv.two_le {σ : Type} {E : Env σ} {s : State σ} (hs : SrcInv E s) :
    2 ≤ s.heap.length := by
  by_contra hc
  have hle : s.heap.length ≤ 1 := by omega
  have h1 := hs.2
  rw [List.getElem?_eq_none hle] at h1
  cases h1

theorem afterDetect_eq {σ : Type} (E : Env σ) (s : State σ) (hs : SrcInv E s) :
    afterDetect E 0 1 s =
      { detector := (E.detect s.detector [srcA E, srcB E, srcA E, srcB E] s.batch_res).1
        heap := s.heap ++ [srcA E, srcB E]
        batch_res := (E.detect s.detector [srcA E, srcB E, srcA E, srcB E] s.batch_res).2
        trace := s.trace ++
          [.timerReset, .detect [srcA E, srcB E, srcA E, srcB E], .timerOut "detect"] } := by
  have hlen := hs.two_le
  obtain ⟨h0, h1⟩ := hs
  have hA : s.heap.getD 0 ⟨[], []⟩ = srcA E := by
    rw [List.getD_eq_getElem?_getD, h0]; rfl
  have hB : (s.heap ++ [srcA E]).getD 1 ⟨[], []⟩ = srcB E := by
    rw [List.getD_eq_getElem?_getD, List.getElem?_append_left (by omega), h1]; rfl
  have e0 : (s.heap ++ [srcA E] ++ [srcB E]).getD s.heap.length ⟨[], []⟩ = srcA E := by
    rw [List.getD_eq_getElem?_getD, List.getElem?_append_left (by simp)]
    simp
  have e1 : (s.heap ++ [srcA E] ++ [srcB E]).getD (s.heap.length + 1) ⟨[], []⟩ = srcB E := by
    rw [List.getD_eq_getElem?_getD, List.getElem?_append_right (by simp)]
    simp
  simp only [afterDetect, hA, hB, List.map, e0, e1]
  simp

theorem not_mem_batch (n j : Nat) (hj : j < n) : j ∉ [n, n + 1, n, n + 1] := by
  intro h
  simp only [List.mem_cons, List.mem_singleton, List.not_mem_nil, or_false] at h
  omega

theorem lapBody_frame {σ : Type} (E : Env σ) (lap : Nat) (s : State σ) (hs : SrcInv E s) :
    SrcInv E (st (lapBody E 0 1 lap s)) ∧
      detectCalls (st (lapBody E 0 1 lap s)).trace =
        detectCalls s.trace ++ [[srcA E, srcB E, srcA E, srcB E]] := by
  have hf := slotLoop_frame E [s.heap.length, s.heap.length + 1, s.heap.length,
    s.heap.length + 1] (afterDetect E 0 1 s)
  rw [lapBody_eq]
  have hlen := hs.two_le
  have h44 : [s.heap.length, s.heap.length + 1, s.heap.length, s.heap.length + 1].length = 4 :=
    rfl
  rw [h44] at hf
  obtain ⟨-, -, -, h4, h5⟩ := hf
  rw [afterDetect_eq E s hs] at h4 h5 ⊢
  refine ⟨⟨?_, ?_⟩, ?_⟩
  · rw [h4 0 (not_mem_batch _ 0 (by omega))]
    simp only
    rw [List.getElem?_append_left (by omega)]
    exact hs.1
  · rw [h4 1 (not_mem_batch _ 1 (by omega))]
    simp only
    rw [List.getElem?_append_left (by omega)]
    exact hs.2
  · rw [h5]
    simp only
    rw [detectCalls_append]
    rfl

theorem lapBody_ok {σ : Type} (E : Env σ) (lap : Nat) (s : State σ) (hs : SrcInv E s)
    (h4 : 4 ≤ (E.detect s.detector [srcA E, srcB E, srcA E, srcB E] s.batch_res).2.length) :
    ∃ s1 ws, lapBody E 0 1 lap s = .ok s1 ∧ writes s1.trace = writes s.trace ++ ws ∧
      ws.map (fun w => w.1) = (List.range 4).map fileName ∧
      ((∀ t f im, E.imwrite t f im = true) → ∀ w ∈ ws, w.2.2 = true) := by
  have hlen : 4 ≤ (afterDetect E 0 1 s).batch_res.length := by
    rw [afterDetect_eq E s hs]; exact h4
  obtain ⟨s1, ws, hrun, -, hws, hnames, hok⟩ := slotLoop_ok E
    [s.heap.length, s.heap.length + 1, s.heap.length, s.heap.length + 1]
    (afterDetect E 0 1 s) 4 hlen
  refine ⟨s1, ws, ?_, ?_, hnames, hok⟩
  · rw [lapBody_eq, hrun]
  · rw [hws, afterDetect_eq E s hs]
    simp only
    rw [writes_append]
    simp [writes]

theorem lapBody_error {σ : Type} (E : Env σ) (lap : Nat) (s : State σ) (hs : SrcInv E s)
    (h4 : (E.detect s.detector [srcA E, srcB E, srcA E, srcB E] s.batch_res).2.length < 4) :
    ∃ s1, lapBody E 0 1 lap s =
        .error ((E.detect s.detector [srcA E, srcB E, srcA E, srcB E] s.batch_res).2.length, s1) ∧
      s1.batch_res = (E.detect s.detector [srcA E, srcB E, srcA E, srcB E] s.batch_res).2 := by
  have hres : (afterDetect E 0 1 s).batch_res =
      (E.detect s.detector [srcA E, srcB E, srcA E, srcB E] s.batch_res).2 := by
    rw [afterDetect_eq E s hs]
  obtain ⟨s1, hrun, hb⟩ := slotLoop_error E
    [s.heap.length, s.heap.length + 1, s.heap.length, s.heap.length + 1]
    (afterDetect E 0 1 s) 4 (by rw [hres]; exact h4)
  refine ⟨s1, ?_, ?_⟩
  · rw [lapBody_eq, hrun, hres]
  · rw [hb, hres]

/-! ## The run -/

theorem runLaps_succ {σ : Type} (E : Env σ) (n : Nat) :
    runLaps E (n + 1) =
      match runLaps E n with
      | .ok s1 => lapBody E 0 1 n s1
      | .error e => .error e := rfl

theorem initial_srcInv {σ : Type} (E : Env σ) : SrcInv E (initial E) := ⟨rfl, rfl⟩

theorem runLaps_srcInv {σ : Type} (E : Env σ) (n : Nat) : SrcInv E (st (runLaps E n)) :=
  forRange_invariant (SrcInv E) (lapBody E 0 1) n
    (fun i s _ hs => (lapBody_frame E i s hs).1) (initial E) (initial_srcInv E)

/-- The `detect` calls of the first `n` laps: each got the batch `[A, B, A, B]`; there are
`n` of them when no lap stopped the run, and at least one once a lap was started. -/
theorem runLaps_detectCalls {σ : Type} (E : Env σ) (n : Nat) :
    ∃ k, k ≤ n ∧ (0 < n → 0 < k) ∧ ((∃ s, runLaps E n = .ok s) → k = n) ∧
      detectCalls (st (runLaps E n)).trace =
        List.replicate k [srcA E, srcB E, srcA E, srcB E] := by
  induction n with
  | zero => exact ⟨0, Nat.le_refl 0, fun h => h, fun _ => rfl, rfl⟩
  | succ n ih =>
    obtain ⟨k, hk, hpos, hok, hcalls⟩ := ih
    have hinv := runLaps_srcInv E n
    rw [runLaps_succ]
    cases hr : runLaps E n with
    | ok s1 =>
      rw [hr] at hcalls hinv
      have hkn : k = n := hok ⟨s1, hr⟩
      refine ⟨k + 1, by omega, fun _ => Nat.succ_pos k, fun _ => by omega, ?_⟩
      simp only [st] at hcalls hinv
      rw [(lapBody_frame E n s1 hinv).2, hcalls, List.replicate_succ']
    | error e =>
      rw [hr] at hcalls
      have hn : 0 < n := by
        cases n with
        | zero => cases hr
        | succ m => exact Nat.succ_pos m
      refine ⟨k, by omega, fun _ => hpos hn, fun h => ?_, hcalls⟩
      obtain ⟨s, hs⟩ := h
      cases hs

/-- When the `detect` call of every lap that is reached leaves at least 4 entries in
`batch_res`, the first `n` laps go through, and they write the four files, in slot order, `n`
times over. -/
theorem runLaps_ok_of_calls {σ : Type} (E : Env σ) (n : Nat)
    (H : ∀ k s, k < n → runLaps E k = .ok s →
      4 ≤ (E.detect s.detector [srcA E, srcB E, srcA E, srcB E] s.batch_res).2.length) :
    ∃ s, runLaps E n = .ok s ∧
      (writes s.trace).map (fun w => w.1) = (List.replicate n lapFiles).flatten ∧
      ((∀ t f im, E.imwrite t f im = true) → ∀ w ∈ writes s.trace, w.2.2 = true) := by
  induction n with
  | zero => exact ⟨initial E, rfl, rfl, fun _ w hw => by cases hw⟩
  | succ n ih =>
    obtain ⟨s, hrun, hnames, hok⟩ := ih (fun k s hk hs => H k s (Nat.lt_succ_of_lt hk) hs)
    have hinv := runLaps_srcInv E n
    rw [hrun] at hinv
    obtain ⟨s1, ws, hlap, hws, hn4, hok4⟩ :=
      lapBody_ok E n s hinv (H n s (Nat.lt_succ_self n) hrun)
    refine ⟨s1, ?_, ?_, ?_⟩
    · rw [runLaps_succ, hrun]
      exact hlap
    · rw [hws, List.map_append, hnames, hn4, List.replicate_succ', List.flatten_append]
      simp [lapFiles]
    · intro hall w hw
      rw [hws] at hw
      rcases List.mem_append.1 hw with h | h
      · exact hok hall w h
      · exact hok4 hall w h

/-- When every `detect` call leaves at least 4 entries in `batch_res`, the first `n` laps go
through, and they write the four files, in slot order, `n` times over. -/
theorem runLaps_ok {σ : Type} (E : Env σ)
    (H : ∀ d old, 4 ≤ (E.detect d [srcA E, srcB E, srcA E, srcB E] old).2.length) (n : Nat) :
    ∃ s, runLaps E n = .ok s ∧
      (writes s.trace).map (fun w => w.1) = (List.replicate n lapFiles).flatten ∧
      ((∀ t f im, E.imwrite t f im = true) → ∀ w ∈ writes s.trace, w.2.2 = true) :=
  runLaps_ok_of_calls E n (fun _ s _ _ => H s.detector s.batch_res)

theorem fileName_ne : fileName 0 ≠ fileName 1 ∧ fileName 0 ≠ fileName 2 ∧
    fileName 0 ≠ fileName 3 ∧ fileName 1 ≠ fileName 2 ∧ fileName 1 ≠ fileName 3 ∧
    fileName 2 ≠ fileName 3 := by decide

theorem lapFiles_eq : lapFiles = [fileName 0, fileName 1, fileName 2, fileName 3] := rfl

theorem four_of_names (ws : List (String × Image × Bool))
    (h : ws.map (fun w => w.1) = lapFiles) :
    ∃ w0 w1 w2 w3, ws = [w0, w1, w2, w3] ∧ w0.1 = fileName 0 ∧ w1.1 = fileName 1 ∧
      w2.1 = fileName 2 ∧ w3.1 = fileName 3 := by
  rw [lapFiles_eq] at h
  match ws, h with
  | [], h => simp at h
  | [_], h => simp at h
  | [_, _], h => simp at h
  | [_, _, _], h => simp at h
  | [w0, w1, w2, w3], h =>
    simp only [List.map, List.cons.injEq, and_true] at h
    exact ⟨w0, w1, w2, w3, rfl, h.1, h.2.1, h.2.2.1, h.2.2.2⟩
  | _ :: _ :: _ :: _ :: _ :: _, h => simp at h

/-- After the four writes of a lap, a file whose write succeeded holds the image of that
write, whatever was written before and whether or not the other writes succeeded. -/
theorem fileContent_last_lap (ws : List (String × Image × Bool))
    (w0 w1 w2 w3 : String × Image × Bool)
    (h0 : w0.1 = fileName 0) (h1 : w1.1 = fileName 1) (h2 : w2.1 = fileName 2)
    (h3 : w3.1 = fileName 3) :
    (w0.2.2 = true → fileContent (ws ++ [w0, w1, w2, w3]) (fileName 0) = some w0.2.1) ∧
    (w1.2.2 = true → fileContent (ws ++ [w0, w1, w2, w3]) (fileName 1) = some w1.2.1) ∧
    (w2.2.2 = true → fileContent (ws ++ [w0, w1, w2, w3]) (fileName 2) = some w2.2.1) ∧
    (w3.2.2 = true → fileContent (ws ++ [w0, w1, w2, w3]) (fileName 3) = some w3.2.1) := by
  obtain ⟨n01, n02, n03, n12, n13, n23⟩ := fileName_ne
  refine ⟨?_, ?_, ?_, ?_⟩ <;> intro k <;>
    simp only [fileContent, List.foldl_append, List.foldl_cons, List.foldl_nil, h0, h1, h2,
      h3] <;>
    simp [k, n01, n02, n03, n12, n13, n23, n01.symm, n02.symm, n03.symm, n12.symm, n13.symm,
      n23.symm]

/-! ## Independence of what `cv::imwrite` returns -/

theorem SameRun.st {σ : Type} {r u : Run σ} (h : SameRun r u) :
    SameButOk (SampleDetector.st r) (SampleDetector.st u) := by
  cases r with
  | ok s =>
    cases u with
    | ok t => exact h
    | error e => exact h.elim
  | error e =>
    cases u with
    | ok t => exact h.elim
    | error e2 => exact h.2

theorem SameRun.isOk {σ : Type} {r u : Run σ} (h : SameRun r u) :
    (∃ s, r = .ok s) ↔ (∃ s, u = .ok s) := by
  cases r with
  | ok s =>
    cases u with
    | ok t => exact ⟨fun _ => ⟨t, rfl⟩, fun _ => ⟨s, rfl⟩⟩
    | error e => exact h.elim
  | error e =>
    cases u with
    | ok t => exact h.elim
    | error e2 =>
      constructor
      · rintro ⟨s, hs⟩; cases hs
      · rintro ⟨s, hs⟩; cases hs

theorem eraseOk_resultEvents (i m : Nat) (rs : List Result) :
    (rs.flatMap (resultEvents i m)).map eraseOk = rs.flatMap (resultEvents i m) := by
  induction rs with
  | nil => rfl
  | cons r rs ih =>
    rw [List.flatMap_cons, List.map_append, ih]
    rfl

theorem slotBody_same {σ : Type} (E F : Env σ) (b : List Nat) (i : Nat) (s t : State σ)
    (h : SameButOk s t) : SameRun (slotBody E b i s) (slotBody F b i t) := by
  obtain ⟨h1, h2, h3, h4⟩ := h
  cases hres : s.batch_res[i]? with
  | none =>
    have hres2 : t.batch_res[i]? = none := by rw [← h3]; exact hres
    rw [slotBody_none E b i s hres, slotBody_none F b i t hres2]
    exact ⟨rfl, h1, h2, h3, h4⟩
  | some rs =>
    have hres2 : t.batch_res[i]? = some rs := by rw [← h3]; exact hres
    rw [slotBody_some E b i s rs hres, slotBody_some F b i t rs hres2]
    refine ⟨h1, ?_, h3, ?_⟩
    · simp only [h2]
    · simp only [List.map_append, eraseOk_resultEvents, h4, List.map_cons, List.map_nil,
        eraseOk, slotImage, h2]

theorem forRange_same {σ : Type} (body body2 : Nat → State σ → Run σ)
    (hbody : ∀ i s t, SameButOk s t → SameRun (body i s) (body2 i t))
    (n : Nat) (s t : State σ) (h : SameButOk s t) :
    SameRun (forRange n body s) (forRange n body2 t) := by
  induction n with
  | zero => exact h
  | succ k ih =>
    rw [forRange_succ, forRange_succ]
    cases hr : forRange k body s with
    | ok s1 =>
      cases hu : forRange k body2 t with
      | ok t1 =>
        rw [hr, hu] at ih
        exact hbody k s1 t1 ih
      | error e =>
        rw [hr, hu] at ih
        exact ih.elim
    | error e =>
      cases hu : forRange k body2 t with
      | ok t1 =>
        rw [hr, hu] at ih
        exact ih.elim
      | error e2 =>
        rw [hr, hu] at ih
        exact ih

theorem lapBody_same {σ : Type} (E : Env σ) (f : List Event → String → Image → Bool)
    (lap : Nat) (s t : State σ) (h : SameButOk s t) :
    SameRun (lapBody E 0 1 lap s) (lapBody { E with imwrite := f } 0 1 lap t) := by
  rw [lapBody_eq, lapBody_eq]
  obtain ⟨h1, h2, h3, h4⟩ := h
  rw [← h2]
  apply forRange_same
  · intro i s1 t1 h11
    exact slotBody_same _ _ _ i s1 t1 h11
  · refine ⟨?_, ?_, ?_, ?_⟩
    · simp only [afterDetect, h1, h2, h3]
    · simp only [afterDetect, h2]
    · simp only [afterDetect, h1, h2, h3]
    · simp only [afterDetect, List.map_append, h4, h2]

theorem runLaps_same {σ : Type} (E : Env σ) (f : List Event → String → Image → Bool)
    (n : Nat) : SameRun (runLaps E n) (runLaps { E with imwrite := f } n) := by
  apply forRange_same
  · intro i s t h
    exact lapBody_same E f i s t h
  · exact ⟨rfl, rfl, rfl, rfl⟩

theorem printed_eraseOk (t : List Event) : printed (t.map eraseOk) = printed t := by
  induction t with
  | nil => rfl
  | cons e t ih =>
    have hc : ∀ (a : Event) (u : List Event), printed (a :: u) = printed [a] ++ printed u :=
      fun a u => printed_append [a] u
    rw [List.map_cons, hc (eraseOk e), ih, hc e t]
    cases e <;> rfl

theorem detectCalls_eraseOk (t : List Event) :
    detectCalls (t.map eraseOk) = detectCalls t := by
  induction t with
  | nil => rfl
  | cons e t ih =>
    have hc : ∀ (a : Event) (u : List Event),
        detectCalls (a :: u) = detectCalls [a] ++ detectCalls u :=
      fun a u => detectCalls_append [a] u
    rw [List.map_cons, hc (eraseOk e), ih, hc e t]
    cases e <;> rfl

theorem writes_eraseOk (t : List Event) :
    (writes (t.map eraseOk)).map (fun w => (w.1, w.2.1)) =
      (writes t).map (fun w => (w.1, w.2.1)) := by
  induction t with
  | nil => rfl
  | cons e t ih =>
    have hc : ∀ (a : Event) (u : List Event), writes (a :: u) = writes [a] ++ writes u :=
      fun a u => writes_append [a] u
    rw [List.map_cons, hc (eraseOk e), List.map_append, ih, hc e t, List.map_append]
    cases e <;> rfl

/-! ## The trace only grows -/

theorem slotLoop_trace {σ : Type} (E : Env σ) (b : List Nat) (n : Nat) (s : State σ) :
    ∃ evs, (st (forRange n (slotBody E b) s)).trace = s.trace ++ evs := by
  apply forRange_invariant (fun s1 => ∃ evs, s1.trace = s.trace ++ evs) (slotBody E b) n
  · intro i s1 _ h1
    obtain ⟨evs, hevs⟩ := h1
    cases hres : s1.batch_res[i]? with
    | none => rw [slotBody_none E b i s1 hres]; exact ⟨evs, hevs⟩
    | some rs =>
      rw [slotBody_some E b i s1 rs hres]
      simp only [st]
      rw [hevs]
      exact ⟨_, by rw [List.append_assoc, List.append_assoc]⟩
  · exact ⟨[], by simp⟩

theorem lapBody_trace {σ : Type} (E : Env σ) (lap : Nat) (s : State σ) (hs : SrcInv E s) :
    ∃ evs, (st (lapBody E 0 1 lap s)).trace = s.trace ++
      [.timerReset, .detect [srcA E, srcB E, srcA E, srcB E], .timerOut "detect"] ++ evs := by
  rw [lapBody_eq]
  obtain ⟨evs, hevs⟩ := slotLoop_trace E
    [s.heap.length, s.heap.length + 1, s.heap.length, s.heap.length + 1] 4
    (afterDetect E 0 1 s)
  rw [hevs, afterDetect_eq E s hs]
  exact ⟨evs, rfl⟩

/-- The run starts with the first `detect` call, on the batch built from the loaded images. -/
theorem runLaps_trace_start {σ : Type} (E : Env σ) (n : Nat) :
    (st (runLaps E n)).trace = [] ∨ ∃ rest, (st (runLaps E n)).trace =
      [.timerReset, .detect [srcA E, srcB E, srcA E, srcB E], .timerOut "detect"] ++ rest := by
  have h := forRange_invariant
    (fun s => SrcInv E s ∧ (s.trace = [] ∨ ∃ rest, s.trace =
      [.timerReset, .detect [srcA E, srcB E, srcA E, srcB E], .timerOut "detect"] ++ rest))
    (lapBody E 0 1) n
    (fun i s _ hs => by
      refine ⟨(lapBody_frame E i s hs.1).1, Or.inr ?_⟩
      obtain ⟨evs, hevs⟩ := lapBody_trace E i s hs.1
      rw [hevs]
      rcases hs.2 with h0 | ⟨rest, hrest⟩
      · rw [h0]
        exact ⟨evs, rfl⟩
      · rw [hrest]
        exact ⟨rest ++ [.timerReset, .detect [srcA E, srcB E, srcA E, srcB E],
          .timerOut "detect"] ++ evs, by simp⟩)
    (initial E) ⟨initial_srcInv E, Or.inl rfl⟩
  exact h.2

/-! ## Where the logged and drawn detections come from -/

theorem drawAll_drawn (Q : DrawOp → Prop) (h : List Image) (m : Nat) (ops : List DrawOp)
    (hh : ∀ im ∈ h, ∀ op ∈ im.drawn, Q op) (hops : ∀ op ∈ ops, Q op) :
    ∀ im ∈ drawAll h m ops, ∀ op ∈ im.drawn, Q op := by
  intro im him op hop
  obtain ⟨j, hj⟩ := List.getElem?_of_mem him
  by_cases hjm : j = m
  · rw [hjm, getElem?_drawAll_self] at hj
    cases h0 : h[m]? with
    | none => rw [h0] at hj; cases hj
    | some im0 =>
      rw [h0] at hj
      simp only [Option.map_some', Option.some.injEq] at hj
      rw [← hj] at hop
      rcases List.mem_append.1 hop with h1 | h1
      · exact hh im0 (List.getElem?_mem h0) op h1
      · exact hops op h1
  · rw [getElem?_drawAll_ne h m j ops hjm] at hj
    exact hh im (List.getElem?_mem hj) op hop

theorem resultEvents_from (P : Result → Prop) (i m : Nat) (rs : List Result)
    (hrs : ∀ r ∈ rs, P r) : ∀ e ∈ rs.flatMap (resultEvents i m), EventFrom P e := by
  intro e he
  obtain ⟨r, hr, her⟩ := List.mem_flatMap.1 he
  simp only [resultEvents, List.mem_cons, List.mem_singleton, List.not_mem_nil, or_false] at her
  rcases her with h | h | h
  · rw [h]; exact hrs r hr
  · rw [h]; exact ⟨r, hrs r hr, by simp [drawOps]⟩
  · rw [h]; exact ⟨r, hrs r hr, by simp [drawOps]⟩

theorem slotBody_good {σ : Type} (P : Result → Prop) (D : σ → Prop) (E : Env σ)
    (b : List Nat) (i : Nat) (s : State σ) (hs : Good P D s) :
    Good P D (st (slotBody E b i s)) := by
  cases hres : s.batch_res[i]? with
  | none => rw [slotBody_none E b i s hres]; exact hs
  | some rs =>
    rw [slotBody_some E b i s rs hres]
    obtain ⟨h1, h2, h3, h4⟩ := hs
    have hrs : ∀ r ∈ rs, P r := h2 rs (List.getElem?_mem hres)
    have hops : ∀ op ∈ rs.flatMap drawOps, DrawnFrom P op := by
      intro op hop
      obtain ⟨r, hr, hor⟩ := List.mem_flatMap.1 hop
      exact ⟨r, hrs r hr, hor⟩
    have hheap := drawAll_drawn (DrawnFrom P) s.heap (b.getD i 0) (rs.flatMap drawOps) h3 hops
    refine ⟨h1, h2, hheap, ?_⟩
    intro e he
    simp only [st] at he
    rcases List.mem_append.1 he with he1 | he1
    · rcases List.mem_append.1 he1 with he2 | he2
      · exact h4 e he2
      · exact resultEvents_from P i _ rs hrs e he2
    · rw [List.mem_singleton.1 he1]
      intro op hop
      unfold slotImage at hop
      rw [List.getD_eq_getElem?_getD] at hop
      cases hg : (drawAll s.heap (b.getD i 0) (rs.flatMap drawOps))[b.getD i 0]? with
      | none => rw [hg] at hop; cases hop
      | some im =>
        rw [hg] at hop
        exact hheap im (List.getElem?_mem hg) op hop

theorem lapBody_good {σ : Type} (P : Result → Prop) (D : σ → Prop) (E : Env σ)
    (hdet : ∀ d b old, D d →
      D (E.detect d b old).1 ∧ ∀ rs ∈ (E.detect d b old).2, ∀ r ∈ rs, P r)
    (lap : Nat) (s : State σ) (hinv : SrcInv E s) (hs : Good P D s) :
    Good P D (st (lapBody E 0 1 lap s)) := by
  rw [lapBody_eq]
  apply forRange_invariant (Good P D) _ 4 (fun i s1 _ h1 => slotBody_good P D E _ i s1 h1)
  rw [afterDetect_eq E s hinv]
  obtain ⟨h1, h2, h3, h4⟩ := hs
  have hd := hdet s.detector [srcA E, srcB E, srcA E, srcB E] s.batch_res h1
  refine ⟨hd.1, hd.2, ?_, ?_⟩
  · intro im him
    rcases List.mem_append.1 him with h | h
    · exact h3 im h
    · simp only [List.mem_cons, List.mem_singleton, List.not_mem_nil, or_false] at h
      rcases h with h | h
      · rw [h]; exact h3 _ (List.getElem?_mem hinv.1)
      · rw [h]; exact h3 _ (List.getElem?_mem hinv.2)
  · intro e he
    rcases List.mem_append.1 he with h | h
    · exact h4 e h
    · simp only [List.mem_cons, List.mem_singleton, List.not_mem_nil, or_false] at h
      rcases h with h | h | h <;> rw [h] <;> trivial

theorem runLaps_good {σ : Type} (P : Result → Prop) (D : σ → Prop) (E : Env σ)
    (hinit : D (E.init config_v4_tiny))
    (hdet : ∀ d b old, D d →
      D (E.detect d b old).1 ∧ ∀ rs ∈ (E.detect d b old).2, ∀ r ∈ rs, P r)
    (n : Nat) : Good P D (st (runLaps E n)) := by
  have h := forRange_invariant (fun s => SrcInv E s ∧ Good P D s) (lapBody E 0 1) n
    (fun i s _ hs => ⟨(lapBody_frame E i s hs.1).1, lapBody_good P D E hdet i s hs.1 hs.2⟩)
    (initial E) ⟨initial_srcInv E, hinit, ?_, ?_, ?_⟩
  · exact h.2
  · intro rs hrs; cases hrs
  · intro im him
    simp only [initial, List.mem_cons, List.mem_singleton, List.not_mem_nil, or_false] at him
    rcases him with h | h <;> rw [h] <;> intro op hop <;> cases hop
  · intro e he; cases he

/-! ## Numbers -/

/-- A float that compares at least 0.5 is plus infinity or a finite float with a clear sign
bit and a magnitude of at least 0.5. -/
theorem le_half_threshold (p : FloatVal)
    (h : FloatVal.le config_v4_tiny.detect_thresh p = true) :
    p = .inf false ∨ ∃ mag, p = .finite false mag ∧ 1 / 2 ≤ |mag| := by
  cases p with
  | finite neg mag =>
    cases neg with
    | false =>
      refine Or.inr ⟨mag, rfl, ?_⟩
      simpa [FloatVal.le, config_v4_tiny, abs_of_pos] using h
    | true =>
      exfalso
      have h1 : (1 / 2 : ℚ) ≤ -|mag| := by
        simpa [FloatVal.le, config_v4_tiny, abs_of_pos] using h
      have h2 := abs_nonneg mag
      linarith
  | inf neg =>
    cases neg with
    | false => exact Or.inl rfl
    | true => simp [FloatVal.le, config_v4_tiny] at h
  | nan neg => simp [FloatVal.le, config_v4_tiny] at h

/-- The value `roundHalfEven` gives is the integer nearest to its argument, the even one of
the two when the argument is half way between them. -/
theorem roundHalfEven_nearest (q : ℚ) (hq : 0 ≤ q) :
    |(roundHalfEven q : ℚ) - q| < 1 / 2 ∨
      (|(roundHalfEven q : ℚ) - q| = 1 / 2 ∧ roundHalfEven q % 2 = 0) := by
  have hfl : (0 : ℤ) ≤ ⌊q⌋ := Int.floor_nonneg.2 hq
  have hcast : ((q.floor.toNat : ℕ) : ℚ) = ((⌊q⌋ : ℤ) : ℚ) := by
    have h1 : ((⌊q⌋.toNat : ℕ) : ℤ) = ⌊q⌋ := Int.toNat_of_nonneg hfl
    have h2 : q.floor = ⌊q⌋ := rfl
    rw [h2]
    exact_mod_cast congrArg (fun z : ℤ => (z : ℚ)) h1
  have hlo : ((⌊q⌋ : ℤ) : ℚ) ≤ q := Int.floor_le q
  have hhi : q < ((⌊q⌋ : ℤ) : ℚ) + 1 := Int.lt_floor_add_one q
  unfold roundHalfEven
  simp only
  rw [hcast]
  by_cases h1 : q - ((⌊q⌋ : ℤ) : ℚ) < 1 / 2
  · rw [if_pos h1, hcast]
    left
    rw [abs_lt]
    constructor <;> linarith
  · rw [if_neg h1]
    by_cases h2 : 1 / 2 < q - ((⌊q⌋ : ℤ) : ℚ)
    · rw [if_pos h2]
      left
      push_cast
      rw [hcast, abs_lt]
      constructor <;> linarith
    · rw [if_neg h2]
      have heq : q - ((⌊q⌋ : ℤ) : ℚ) = 1 / 2 := le_antisymm (not_lt.1 h2) (not_lt.1 h1)
      by_cases h3 : q.floor.toNat % 2 = 0
      · rw [if_pos h3]
        right
        refine ⟨?_, h3⟩
        rw [hcast, abs_sub_comm, heq]
        norm_num
      · rw [if_neg h3]
        right
        constructor
        · push_cast
          rw [hcast]
          have : ((⌊q⌋ : ℤ) : ℚ) + 1 - q = 1 / 2 := by linarith
          rw [this]
          norm_num
        · omega

/-! ## The images written in a lap -/

theorem draw_append_length (h : List Image) (a : Image) (t : List Image) (op : DrawOp) :
    draw (h ++ a :: t) h.length op = h ++ a.draw op :: t := by
  induction h with
  | nil => rfl
  | cons x h ih => simp [draw, ih]

theorem drawAll_append_length (h : List Image) (a : Image) (t : List Image)
    (ops : List DrawOp) :
    drawAll (h ++ a :: t) h.length ops = h ++ { a with drawn := a.drawn ++ ops } :: t := by
  induction ops generalizing a with
  | nil => simp [drawAll]
  | cons op ops ih =>
    have := ih (a.draw op)
    simp only [drawAll, List.foldl_cons] at this ⊢
    rw [draw_append_length, this]
    simp [Image.draw]

theorem drawAll_append_length_succ (h : List Image) (a b : Image) (t : List Image)
    (ops : List DrawOp) :
    drawAll (h ++ a :: b :: t) (h.length + 1) ops =
      h ++ a :: { b with drawn := b.drawn ++ ops } :: t := by
  have := drawAll_append_length (h ++ [a]) b t ops
  simpa using this

theorem getD_append_length (h : List Image) (a : Image) (t : List Image) (d : Image) :
    (h ++ a :: t).getD h.length d = a := by
  induction h with
  | nil => rfl
  | cons x h ih => simpa using ih

theorem getD_append_length_succ (h : List Image) (a b : Image) (t : List Image) (d : Image) :
    (h ++ a :: b :: t).getD (h.length + 1) d = b := by
  induction h with
  | nil => rfl
  | cons x h ih => simpa using ih

/-- The images written in one lap, for the four result sequences `r0 .. r3` the detector
returned: slot 2 shares its buffer with slot 0 and slot 3 with slot 1. -/
theorem lapBody_images {σ : Type} (E : Env σ) (lap : Nat) (s : State σ) (hs : SrcInv E s)
    (r0 r1 r2 r3 : List Result) (rest : List BatchResult)
    (hres : (E.detect s.detector [srcA E, srcB E, srcA E, srcB E] s.batch_res).2 =
      r0 :: r1 :: r2 :: r3 :: rest) :
    ∃ s1, lapBody E 0 1 lap s = .ok s1 ∧
      (writes s1.trace).map (fun w => (w.1, w.2.1)) =
        (writes s.trace).map (fun w => (w.1, w.2.1)) ++
        [(fileName 0, { srcA E with drawn := r0.flatMap drawOps }),
         (fileName 1, { srcB E with drawn := r1.flatMap drawOps }),
         (fileName 2, { srcA E with drawn := r0.flatMap drawOps ++ r2.flatMap drawOps }),
         (fileName 3, { srcB E with drawn := r1.flatMap drawOps ++ r3.flatMap drawOps })] := by
  rw [lapBody_eq, afterDetect_eq E s hs, hres]
  simp only [forRange, slotBody, annotate_eq, List.getElem?_cons_zero,
    List.getElem?_cons_succ, List.getD_cons_zero, List.getD_cons_succ]
  refine ⟨_, rfl, ?_⟩
  simp only [writes_append, writes_resultEvents, List.map_append, drawAll_append_length,
    drawAll_append_length_succ, getD_append_length, getD_append_length_succ]
  simp [writes, srcA, srcB, loaded]

/-! ## The claims -/

/-- C1: evaluation of the program where the detector reports one detection for slot 0 and
none for slots 1, 2 and 3.  Slots 0 and 2 share one pixel buffer, so the image written to
`image2.jpg` carries the rectangle and the label of slot 0, in the first lap and in every lap,
although `batch_res[2]` is empty.  When the detector reports the same detection for slots 0
and 2, the image written to `image2.jpg` has received its drawing calls twice. -/
theorem slot2_image_carries_slot0_drawings :
    (st (runLaps slot0Env 1)).batch_res = [[dogBox], [], [], []] ∧
    (writes (st (runLaps slot0Env 1)).trace).map (fun w => (w.1, w.2.1)) =
      [("image0.jpg", ⟨[1], drawOps dogBox⟩), ("image1.jpg", ⟨[2], []⟩),
       ("image2.jpg", ⟨[1], drawOps dogBox⟩), ("image3.jpg", ⟨[2], []⟩)] ∧
    (∀ w ∈ writes (st (main slot0Env)).trace,
      w.1 = "image2.jpg" → w.2.1 = ⟨[1], drawOps dogBox⟩) ∧
    (writes (st (runLaps slot02Env 1)).trace).map (fun w => (w.1, w.2.1)) =
      [("image0.jpg", ⟨[1], drawOps dogBox⟩), ("image1.jpg", ⟨[2], []⟩),
       ("image2.jpg", ⟨[1], drawOps dogBox ++ drawOps dogBox⟩),
       ("image3.jpg", ⟨[2], []⟩)] := by
  with_unfolding_all decide

/-- C2: every batch handed to `detect` has exactly 4 slots, slot `i` holding a copy of
`image0` (dog.jpg) when `i` is even and of `image1` (person.jpg) when `i` is odd; `detect` is
called in every lap that is started: at least once, at most 10 times, and exactly 10 times
when the run goes through. -/
theorem detect_batch_composition {σ : Type} (E : Env σ) :
    (∀ b ∈ detectCalls (st (main E)).trace,
      b.length = 4 ∧ ∀ i, i < 4 → b[i]? = some (if i % 2 = 0 then srcA E else srcB E)) ∧
    1 ≤ (detectCalls (st (main E)).trace).length ∧
    (detectCalls (st (main E)).trace).length ≤ 10 ∧
    ((∃ s, main E = .ok s) → (detectCalls (st (main E)).trace).length = 10) := by
  obtain ⟨k, hk, hpos, hok, hcalls⟩ := runLaps_detectCalls E 10
  have hk1 : 0 < k := hpos (by decide)
  unfold main
  rw [hcalls]
  refine ⟨?_, ?_, ?_, ?_⟩
  · intro b hb
    rw [(List.mem_replicate.1 hb).2]
    refine ⟨rfl, ?_⟩
    intro i hi
    interval_cases i <;> rfl
  · rw [List.length_replicate]; exact hk1
  · rw [List.length_replicate]; exact hk
  · intro h
    rw [List.length_replicate]
    exact hok h

/-- C3: whatever the detector returns, after any number `k` of laps (that is, before and
after every lap) the buffers of `image0` and `image1` hold exactly what was loaded, with no
drawing on them, and every batch handed to `detect` so far is the same `[A, B, A, B]` as in
the first lap. -/
theorem sources_never_modified {σ : Type} (E : Env σ) (k : Nat) :
    (st (runLaps E k)).heap[0]? = some (loaded E "../configs/dog.jpg") ∧
    (st (runLaps E k)).heap[1]? = some (loaded E "../configs/person.jpg") ∧
    (loaded E "../configs/dog.jpg").drawn = [] ∧
    (loaded E "../configs/person.jpg").drawn = [] ∧
    ∀ b ∈ detectCalls (st (runLaps E k)).trace,
      b = [loaded E "../configs/dog.jpg", loaded E "../configs/person.jpg",
        loaded E "../configs/dog.jpg", loaded E "../configs/person.jpg"] := by
  obtain ⟨h0, h1⟩ := runLaps_srcInv E k
  obtain ⟨n, -, -, -, hcalls⟩ := runLaps_detectCalls E k
  refine ⟨h0, h1, rfl, rfl, ?_⟩
  intro b hb
  rw [hcalls] at hb
  exact (List.mem_replicate.1 hb).2

/-- C4: when the result sequence of slot `i` is empty, the body of the display loop issues no
drawing call, changes no pixel buffer, and hands to `cv::imwrite` the image of the slot as it
was before: the only thing it does is that one `cv::imwrite` call. -/
theorem annotate_empty_unchanged {σ : Type} (E : Env σ) (b : List Nat) (i : Nat)
    (s : State σ) (h : s.batch_res[i]? = some []) :
    annotate i (b.getD i 0) [] s = s ∧
    (∃ ok, slotBody E b i s = .ok { s with
      trace := s.trace ++ [.imwrite (fileName i) (s.heap.getD (b.getD i 0) ⟨[], []⟩) ok] }) ∧
    (st (slotBody E b i s)).heap = s.heap ∧
    drawCalls (st (slotBody E b i s)).trace = drawCalls s.trace := by
  have hrun := slotBody_some E b i s [] h
  simp only [List.flatMap_nil, List.append_nil, slotImage, drawAll, List.foldl_nil] at hrun
  refine ⟨rfl, ⟨_, hrun⟩, ?_, ?_⟩
  · rw [hrun]; rfl
  · rw [hrun]
    simp only [st]
    rw [drawCalls_append]
    simp [drawCalls]

/-- C5: for every result sequence `rs`, the annotation loop issues, for each result in
sequence order, one rectangle call at `r.rect` followed by one text call anchored at
`(r.rect.x, r.rect.y - 5)` with the text `id:<id>  score:<prob>`; that is `2 * length rs`
drawing calls, all on the slot's `Mat`.  The subtraction is that of C `int`: the exact
difference whenever it is an `int`, that is for `y >= INT_MIN + 5`, and `2^32` more below.
The probability is in two-decimal fixed notation: for a finite `float` the sign, the integer
part, a point and exactly two decimal digits, of the hundredth nearest to the magnitude (the
even one at a tie); an infinity or a NaN prints as `inf` or `nan` after its sign. -/
theorem annotate_draw_calls {σ : Type} (i m : Nat) (rs : List Result) (s : State σ) :
    drawCalls (annotate i m rs s).trace = drawCalls s.trace ++ rs.flatMap (fun r =>
      [Event.rectangle m r.rect ⟨255, 0, 0⟩ 2,
       Event.putText m ("id:" ++ toString r.id ++ "  score:" ++ fixed2 r.prob)
         ⟨r.rect.x, subInt32 r.rect.y 5⟩ 0 (1 / 2) ⟨0, 0, 255⟩ 2]) ∧
    (drawCalls (annotate i m rs s).trace).length = (drawCalls s.trace).length + 2 * rs.length ∧
    (annotate i m rs s).heap = drawAll s.heap m (rs.flatMap fun r =>
      [DrawOp.rectangle r.rect ⟨255, 0, 0⟩ 2,
       DrawOp.putText ("id:" ++ toString r.id ++ "  score:" ++ fixed2 r.prob)
         ⟨r.rect.x, subInt32 r.rect.y 5⟩ 0 (1 / 2) ⟨0, 0, 255⟩ 2]) ∧
    (∀ y : Int, -2147483643 ≤ y → y ≤ 2147483647 → subInt32 y 5 = y - 5) ∧
    (∀ y : Int, -2147483648 ≤ y → y < -2147483643 → subInt32 y 5 = y - 5 + 4294967296) ∧
    (∀ (neg : Bool) (mag : ℚ), ∃ n : Nat,
      (|(n : ℚ) - |mag| * 100| < 1 / 2 ∨ (|(n : ℚ) - |mag| * 100| = 1 / 2 ∧ n % 2 = 0)) ∧
      fixed2 (.finite neg mag) = (if neg then "-" else "") ++ toString (n / 100) ++ "." ++
        String.mk [Nat.digitChar (n % 100 / 10), Nat.digitChar (n % 10)]) ∧
    (∀ neg : Bool, fixed2 (.inf neg) = (if neg then "-" else "") ++ "inf" ∧
      fixed2 (.nan neg) = (if neg then "-" else "") ++ "nan") := by
  have hd : ∀ l : List Result, drawCalls (l.flatMap (resultEvents i m)) = l.flatMap (fun r =>
      [Event.rectangle m r.rect ⟨255, 0, 0⟩ 2,
       Event.putText m ("id:" ++ toString r.id ++ "  score:" ++ fixed2 r.prob)
         ⟨r.rect.x, subInt32 r.rect.y 5⟩ 0 (1 / 2) ⟨0, 0, 255⟩ 2]) := by
    intro l
    induction l with
    | nil => rfl
    | cons r l ih =>
      rw [List.flatMap_cons, List.flatMap_cons, drawCalls_append, ih]
      rfl
  have hl : ∀ l : List Result, (l.flatMap (fun r =>
      [Event.rectangle m r.rect ⟨255, 0, 0⟩ 2,
       Event.putText m ("id:" ++ toString r.id ++ "  score:" ++ fixed2 r.prob)
         ⟨r.rect.x, subInt32 r.rect.y 5⟩ 0 (1 / 2) ⟨0, 0, 255⟩ 2])).length = 2 * l.length := by
    intro l
    induction l with
    | nil => rfl
    | cons r l ih =>
      rw [List.flatMap_cons, List.length_append, ih, List.length_cons]
      simp only [List.length_cons, List.length_nil]
      omega
  rw [annotate_trace, drawCalls_append, hd, List.length_append, hl]
  refine ⟨rfl, rfl, annotate_heap i m rs s, ?_, ?_, ?_, ?_⟩
  · intro y h1 h2
    unfold subInt32
    omega
  · intro y h1 h2
    unfold subInt32
    omega
  · intro neg mag
    refine ⟨roundHalfEven (|mag| * 100), ?_, ?_⟩
    · exact roundHalfEven_nearest (|mag| * 100) (mul_nonneg (abs_nonneg mag) (by norm_num))
    · cases neg <;> simp [fixed2, signText]
  · intro neg
    cases neg <;> exact ⟨rfl, rfl⟩

/-- Evaluations for C5: 0.875 prints as `0.88` and 0.125 as `0.12` (ties to even), the
negative zero as `-0.00`, plus infinity as `inf`; `y - 5` at `y = -2147483647` wraps around
to 2147483644; the label of a detection of class 1 and probability 0.875. -/
theorem formatting_samples :
    fixed2 (.finite false (7 / 8)) = "0.88" ∧ fixed2 (.finite false (1 / 8)) = "0.12" ∧
    fixed2 (.finite true 0) = "-0.00" ∧ fixed2 (.inf false) = "inf" ∧
    subInt32 (-2147483647) 5 = 2147483644 ∧ subInt32 20 5 = 15 ∧
    label dogBox = "id:1  score:0.88" := by
  with_unfolding_all decide

/-- C6, as amended: when every `detect` call of the run returns 4 result sequences the run
goes through all 10 laps (10 `detect` calls) and makes exactly 40 `cv::imwrite` calls, in each
lap one per slot in slot order, to `image0.jpg`, `image1.jpg`, `image2.jpg`, `image3.jpg`.
The file name is injective in the slot index and 4 distinct files are written to.  The write
of slot `i` in the last lap is write number `36 + i`; when that write succeeds, the file
holds its image after the run. -/
theorem complete_run_writes {σ : Type} (E : Env σ)
    (H : ∀ k s, k < 10 → runLaps E k = .ok s →
      (E.detect s.detector [srcA E, srcB E, srcA E, srcB E] s.batch_res).2.length = 4) :
    ∃ s, main E = .ok s ∧
      (detectCalls s.trace).length = 10 ∧
      (writes s.trace).length = 40 ∧
      (writes s.trace).map (fun w => w.1) =
        (List.replicate 10 ["image0.jpg", "image1.jpg", "image2.jpg", "image3.jpg"]).flatten ∧
      (∀ i, i < 4 → fileName i = "image" ++ toString i ++ ".jpg") ∧
      (∀ i j, i < 4 → j < 4 → fileName i = fileName j → i = j) ∧
      ((writes s.trace).map (fun w => w.1)).dedup.length = 4 ∧
      (∀ i, i < 4 → ∃ w, (writes s.trace)[36 + i]? = some w ∧ w.1 = fileName i ∧
        (w.2.2 = true → fileContent (writes s.trace) (fileName i) = some w.2.1)) := by
  have H4 : ∀ k s, k < 10 → runLaps E k = .ok s →
      4 ≤ (E.detect s.detector [srcA E, srcB E, srcA E, srcB E] s.batch_res).2.length :=
    fun k s hk hs => (H k s hk hs).ge
  obtain ⟨s9, hrun9, hnames9, -⟩ := runLaps_ok_of_calls E 9
    (fun k s hk hs => H4 k s (by omega) hs)
  have hinv := runLaps_srcInv E 9
  rw [hrun9] at hinv
  obtain ⟨s, ws, hlap, hws, hn4, -⟩ := lapBody_ok E 9 s9 hinv (H4 9 s9 (by decide) hrun9)
  have hmain : main E = .ok s := by
    unfold main
    rw [runLaps_succ, hrun9]
    exact hlap
  obtain ⟨k, -, -, hk, hcalls⟩ := runLaps_detectCalls E 10
  have hk10 : k = 10 := hk ⟨s, hmain⟩
  have hmain2 : runLaps E 10 = .ok s := hmain
  rw [hmain2, hk10] at hcalls
  have hnames : (writes s.trace).map (fun w => w.1) =
      (List.replicate 10 ["image0.jpg", "image1.jpg", "image2.jpg", "image3.jpg"]).flatten := by
    rw [hws, List.map_append, hnames9, hn4]
    rfl
  have hlen9 : (writes s9.trace).length = 36 := by
    have := congrArg List.length hnames9
    rw [List.length_map] at this
    rw [this]
    rfl
  refine ⟨s, hmain, ?_, ?_, hnames, fun _ _ => rfl, ?_, ?_, ?_⟩
  · simp only [st] at hcalls
    rw [hcalls, List.length_replicate]
  · have := congrArg List.length hnames
    rw [List.length_map] at this
    rw [this]
    rfl
  · intro i j hi hj
    interval_cases i <;> interval_cases j <;> decide
  · rw [hnames]
    decide
  · intro i hi
    obtain ⟨w0, w1, w2, w3, hw, h0, h1, h2, h3⟩ := four_of_names ws hn4
    obtain ⟨c0, c1, c2, c3⟩ := fileContent_last_lap (writes s9.trace) w0 w1 w2 w3 h0 h1 h2 h3
    rw [hws, hw]
    rw [List.getElem?_append_right (by omega), hlen9]
    interval_cases i
    · exact ⟨w0, rfl, h0, c0⟩
    · exact ⟨w1, rfl, h1, c1⟩
    · exact ⟨w2, rfl, h2, c2⟩
    · exact ⟨w3, rfl, h3, c3⟩

/-- C6, as stated, fails: in the run where every `detect` call returns 4 result sequences and
every write fails, the run is complete, with 40 `cv::imwrite` calls, and after it none of the
four files holds an image. -/
theorem failed_writes_leave_no_file :
    (∀ d b old, ((quietEnv [1] false).detect d b old).2.length = 4) ∧
    (main (quietEnv [1] false)).toBool = true ∧
    (detectCalls (st (main (quietEnv [1] false))).trace).length = 10 ∧
    (writes (st (main (quietEnv [1] false))).trace).length = 40 ∧
    (∀ i, i < 4 →
      fileContent (writes (st (main (quietEnv [1] false))).trace) (fileName i) = none) :=
  ⟨fun _ _ _ => rfl, by with_unfolding_all decide⟩

/-- C10: when every `detect` call on the batch leaves at least 4 entries in `batch_res`, no
access `batch_res[i]` of the 10 laps is out of range: the run reaches its end.  When the first
`detect` call leaves fewer than 4 entries, the access at `i = batch_res.size() < 4` is out of
range. -/
theorem batch_res_access_in_bounds {σ : Type} (E : Env σ) :
    ((∀ d old, 4 ≤ (E.detect d [srcA E, srcB E, srcA E, srcB E] old).2.length) →
      ∃ s, main E = .ok s) ∧
    ((E.detect (E.init config_v4_tiny) [srcA E, srcB E, srcA E, srcB E] []).2.length < 4 →
      ∃ i s, main E = .error (i, s) ∧ i < 4 ∧ i = s.batch_res.length ∧
        s.batch_res[i]? = none) := by
  constructor
  · intro H
    obtain ⟨s, hs, -⟩ := runLaps_ok E H 10
    exact ⟨s, hs⟩
  · intro h
    obtain ⟨s1, hlap, hres⟩ := lapBody_error E 0 (initial E) (initial_srcInv E) h
    have h1 : runLaps E 1 = .error (_, s1) := hlap
    have h10 : main E = .error (_, s1) := forRange_error_mono (lapBody E 0 1) (initial E) 1 9 _ h1
    refine ⟨_, s1, h10, h, ?_, ?_⟩
    · rw [hres]
    · rw [List.getElem?_eq_none]
      rw [hres]

/-- C7, as amended: what `cv::imwrite` returns has no effect on the run.  Replacing the
outcome of the writes by any other leaves unchanged what is printed (a failed write is not
reported), the `detect` calls, the sequence of files written with their images, and whether
the run reaches its end (a failed write does not abort anything). -/
theorem write_outcome_ignored {σ : Type} (E : Env σ)
    (f : List Event → String → Image → Bool) :
    printed (st (main { E with imwrite := f })).trace = printed (st (main E)).trace ∧
    detectCalls (st (main { E with imwrite := f })).trace = detectCalls (st (main E)).trace ∧
    (writes (st (main { E with imwrite := f })).trace).map (fun w => (w.1, w.2.1)) =
      (writes (st (main E)).trace).map (fun w => (w.1, w.2.1)) ∧
    ((∃ s, main { E with imwrite := f } = .ok s) ↔ (∃ s, main E = .ok s)) := by
  have h := runLaps_same E f 10
  have hst := h.st.2.2.2
  refine ⟨?_, ?_, ?_, h.isOk.symm⟩
  · unfold main
    rw [← printed_eraseOk, ← hst, printed_eraseOk]
  · unfold main
    rw [← detectCalls_eraseOk, ← hst, detectCalls_eraseOk]
  · unfold main
    rw [← writes_eraseOk, ← hst, writes_eraseOk]

/-- C7, as stated, fails: in the run where the detector finds nothing and all 40 writes
fail, the program prints the 10 timing lines and nothing else, exactly what it prints when
all the writes succeed. -/
theorem failed_write_prints_nothing :
    (writes (st (main (quietEnv [1] false))).trace).length = 40 ∧
    (∀ w ∈ writes (st (main (quietEnv [1] false))).trace, w.2.2 = false) ∧
    printed (st (main (quietEnv [1] false))).trace =
      List.replicate 10 (Event.timerOut "detect") ∧
    printed (st (main (quietEnv [1] true))).trace =
      List.replicate 10 (Event.timerOut "detect") := by
  with_unfolding_all decide

/-- C8, as amended: the loaded images are not checked.  When `cv::imread` yields an empty
image for either file, the run still starts with the `detect` call, on a batch built from the
loaded images, an empty one among them. -/
theorem unreadable_image_not_checked {σ : Type} (E : Env σ)
    (h : E.imread "../configs/dog.jpg" IMREAD_UNCHANGED = [] ∨
      E.imread "../configs/person.jpg" IMREAD_UNCHANGED = []) :
    ∃ rest, (st (main E)).trace =
        [.timerReset, .detect [srcA E, srcB E, srcA E, srcB E], .timerOut "detect"] ++ rest ∧
      ((srcA E).empty = true ∨ (srcB E).empty = true) := by
  have hempty : (srcA E).empty = true ∨ (srcB E).empty = true := by
    rcases h with h | h
    · exact Or.inl (by simp [srcA, loaded, Image.empty, h])
    · exact Or.inr (by simp [srcB, loaded, Image.empty, h])
  obtain ⟨k, -, hpos, -, hcalls⟩ := runLaps_detectCalls E 10
  have hk : 0 < k := hpos (by decide)
  rcases runLaps_trace_start E 10 with h0 | ⟨rest, hrest⟩
  · rw [h0] at hcalls
    have := congrArg List.length hcalls
    rw [List.length_replicate] at this
    simp [detectCalls] at this
    omega
  · exact ⟨rest, hrest, hempty⟩

/-- C8, as stated, fails: when neither image can be read, the run does not stop: it reaches
its end after 10 `detect` calls, each on four empty images, and 40 `cv::imwrite` calls. -/
theorem unreadable_image_run_goes_on :
    (quietEnv [] true).imread "../configs/dog.jpg" IMREAD_UNCHANGED = [] ∧
    (quietEnv [] true).imread "../configs/person.jpg" IMREAD_UNCHANGED = [] ∧
    (main (quietEnv [] true)).toBool = true ∧
    detectCalls (st (main (quietEnv [] true))).trace =
      List.replicate 10 (List.replicate 4 ⟨[], []⟩) ∧
    (writes (st (main (quietEnv [] true))).trace).length = 40 := by
  with_unfolding_all decide

/-- C9: with the detector of the spec, initialised by `main` with the threshold 0.5, the run
reaches its end, and every detection it prints and every rectangle or label on an image it
writes comes from a result of probability at least 0.5: plus infinity, or a finite float with
a clear sign bit and a magnitude of at least 0.5. -/
theorem no_detection_below_threshold (raw : Nat → List Image → Nat → List Result)
    (imread : String → Int → List Nat) (imwrite : List Event → String → Image → Bool) :
    config_v4_tiny.detect_thresh = .finite false (1 / 2) ∧
    (∃ s, main (thresholdEnv raw imread imwrite) = .ok s) ∧
    ∀ e ∈ (st (main (thresholdEnv raw imread imwrite))).trace,
      (∀ i r, e = .stdout i r →
        r.prob = .inf false ∨ ∃ mag, r.prob = .finite false mag ∧ 1 / 2 ≤ |mag|) ∧
      (∀ f img ok, e = .imwrite f img ok →
        ∀ op ∈ img.drawn, ∃ r,
          (r.prob = .inf false ∨ ∃ mag, r.prob = .finite false mag ∧ 1 / 2 ≤ |mag|) ∧
          op ∈ drawOps r) := by
  refine ⟨rfl, ?_, ?_⟩
  · obtain ⟨s, hs, -⟩ := runLaps_ok (thresholdEnv raw imread imwrite)
      (fun d old => by simp [thresholdEnv]) 10
    exact ⟨s, hs⟩
  · have hgood := runLaps_good
      (fun r => r.prob = .inf false ∨ ∃ mag, r.prob = .finite false mag ∧ 1 / 2 ≤ |mag|)
      (fun d : Config × Nat => d.1 = config_v4_tiny) (thresholdEnv raw imread imwrite) rfl
      (fun d b old hd => by
        refine ⟨hd, ?_⟩
        intro rs hrs r hr
        simp only [thresholdEnv, List.mem_map, List.mem_range] at hrs
        obtain ⟨j, -, hj⟩ := hrs
        rw [← hj] at hr
        have hp := (List.mem_filter.1 hr).2
        rw [hd] at hp
        exact le_half_threshold r.prob hp) 10
    intro e he
    have hev := hgood.2.2.2 e he
    constructor
    · intro i r heq
      rw [heq] at hev
      exact hev
    · intro f img ok heq
      rw [heq] at hev
      exact hev

/-- An evaluation for C9: with candidates of probability 0.25, 0.5 and 0.75 for every image,
the first lap prints, for each of the 4 slots, the detections of probability 0.5 and 0.75
and not the one of probability 0.25. -/
theorem threshold_sample_run :
    (printed (st (runLaps (thresholdEnv threeCandidates (fun _ _ => [1]) (fun _ _ _ => true))
      1)).trace).filterMap (fun e => match e with
        | .stdout i r => some (i, r.id)
        | _ => none) =
      [(0, 1), (0, 2), (1, 1), (1, 2), (2, 1), (2, 2), (3, 1), (3, 2)] := by
  with_unfolding_all decide

/-! ## Witnesses -/

theorem annotate_empty_unchanged_witness :
    oneSlotState.batch_res[0]? = some [] ∧
    (st (slotBody (quietEnv [1] true) [0] 0 oneSlotState)).heap = oneSlotState.heap ∧
    drawCalls (st (slotBody (quietEnv [1] true) [0] 0 oneSlotState)).trace =
      drawCalls oneSlotState.trace :=
  ⟨rfl, (annotate_empty_unchanged (quietEnv [1] true) [0] 0 oneSlotState rfl).2.2⟩

theorem complete_run_writes_witness :
    (∀ k s, k < 10 → runLaps slot0Env k = .ok s →
      (slot0Env.detect s.detector
        [srcA slot0Env, srcB slot0Env, srcA slot0Env, srcB slot0Env] s.batch_res).2.length
          = 4) ∧
    ∃ s, main slot0Env = .ok s ∧ (detectCalls s.trace).length = 10 ∧
      (writes s.trace).length = 40 ∧
      ∃ w, (writes s.trace)[36 + 2]? = some w ∧ w.1 = fileName 2 ∧
        (w.2.2 = true → fileContent (writes s.trace) (fileName 2) = some w.2.1) :=
  ⟨fun _ _ _ _ => rfl, by
    obtain ⟨s, h1, h2, h3, -, -, -, -, h8⟩ :=
      complete_run_writes slot0Env (fun _ _ _ _ => rfl)
    exact ⟨s, h1, h2, h3, h8 2 (by decide)⟩⟩

theorem unreadable_image_not_checked_witness :
    ((quietEnv [] true).imread "../configs/dog.jpg" IMREAD_UNCHANGED = [] ∨
      (quietEnv [] true).imread "../configs/person.jpg" IMREAD_UNCHANGED = []) ∧
    ∃ rest, (st (main (quietEnv [] true))).trace =
        [.timerReset, .detect [⟨[], []⟩, ⟨[], []⟩, ⟨[], []⟩, ⟨[], []⟩], .timerOut "detect"]
          ++ rest ∧
      ((srcA (quietEnv [] true)).empty = true ∨ (srcB (quietEnv [] true)).empty = true) :=
  ⟨Or.inl rfl, unreadable_image_not_checked (quietEnv [] true) (Or.inl rfl)⟩

theorem batch_res_access_in_bounds_witness :
    (∀ d old, 4 ≤ (slot0Env.detect d
      [srcA slot0Env, srcB slot0Env, srcA slot0Env, srcB slot0Env] old).2.length) ∧
    (∃ s, main slot0Env = .ok s) ∧
    (shortEnv.detect (shortEnv.init config_v4_tiny)
      [srcA shortEnv, srcB shortEnv, srcA shortEnv, srcB shortEnv] []).2.length < 4 ∧
    (∃ i s, main shortEnv = .error (i, s) ∧ i < 4 ∧ i = s.batch_res.length ∧
      s.batch_res[i]? = none) :=
  ⟨fun _ _ => Nat.le_refl 4,
    (batch_res_access_in_bounds slot0Env).1 (fun _ _ => Nat.le_refl 4),
    by decide, (batch_res_access_in_bounds shortEnv).2 (by decide)⟩

end SampleDetector
